import Mathlib

/-
Verification development for the mock SQL execution engine of the
scadea-oracle-ebs-ai repository (src/server/storage.ts).

The engine interprets a generated SQL string with regular-expression
pattern matching and applies it to in-memory record collections.  The
shallow embedding below renders each JavaScript regular expression as an
explicit character-list scanner with the same matching discipline
(leftmost match, greedy character classes, the one lazy group of the
WHERE extraction with its backtracking order), and renders the loosely
typed JavaScript row values as an explicit Value type.

Host-environment behaviour that the source delegates to the JavaScript
runtime is modelled as follows, each at its point of use:
  - Date.parse is modelled for ISO calendar-date strings (YYYY-MM-DD,
    interpreted as UTC midnight) and for the legacy dotted month.day
    and year.month forms the host parser accepts, under which decimal
    price strings such as 12.31 are valid dates; other strings yield
    none (NaN).
  - parseFloat / ToNumber are modelled for plain decimal literals
    (optional sign, digits, optional fraction); hexadecimal and exponent
    forms are not modelled.
  - Array.prototype.sort is modelled as a stable comparison sort; a NaN
    comparator result is treated as 0 as prescribed by the ECMAScript
    SortCompare operation.
  - the wall clock (new Date()) is an injected Clock value; the
    three-months-ago calendar computation of the quarter predicate is a
    second injected field, since it is host calendar arithmetic.
  - toLowerCase, trim and the \s and \w classes are modelled on the
    ASCII range used by the generated SQL.
-/

namespace Ebs

/-- A loosely typed JavaScript row value: null/undefined, a string, a
number (modelled as a rational, which represents every decimal literal
of the data set exactly), or a Date object carrying its epoch-millisecond
time value. -/
inductive Value where
  | null : Value
  | str : String → Value
  | num : Rat → Value
  | date : Int → Value
deriving DecidableEq, Repr

/-- A record is a loosely typed mapping of field name to value. -/
abbrev Rec := List (String × Value)

/-- Field access row.f: the first binding for the name, or null
(undefined) when the record has no such field. -/
def getF (r : Rec) (k : String) : Value :=
  match r.lookup k with
  | some v => v
  | none => Value.null

/-- JavaScript truthiness of a row value: null/undefined, the empty
string and the number 0 are falsy, everything else (including any Date
object) is truthy. -/
def truthy : Value → Bool
  | Value.null => false
  | Value.str s => !(s == "")
  | Value.num q => !(q == 0)
  | Value.date _ => true

/- ## Character-level machinery shared by the regex models -/

/-- ASCII lower-casing of one character (model of toLowerCase on the
ASCII SQL text). -/
def lcChar (c : Char) : Char :=
  if 65 ≤ c.toNat && c.toNat ≤ 90 then Char.ofNat (c.toNat + 32) else c

/-- Whitespace class \s, modelled on the ASCII whitespace characters. -/
def isWsChar (c : Char) : Bool :=
  c == ' ' || c == '\t' || c == '\n' || c == '\r' || c == '\x0b' || c == '\x0c'

/-- Word-character class \w: ASCII letters, digits and underscore. -/
def isWordC (c : Char) : Bool := c.isAlphanum || c == '_'

/-- A quote character, the class [the two quote characters] used by the
equality patterns; opening and closing quote are matched independently. -/
def isQuoteC (c : Char) : Bool := c == '\'' || c == '"'

/-- Match a literal pattern case-insensitively at the head of the input
and return the rest of the input on success. -/
def dropLitCI : List Char → List Char → Option (List Char)
  | [], s => some s
  | _ :: _, [] => none
  | p :: ps, c :: cs => if lcChar p == lcChar c then dropLitCI ps cs else none

/-- Leftmost-match search: try the position matcher at every suffix of
the input from the left, as the regex engine does for an unanchored
pattern. -/
def scanFirst {α : Type} (f : List Char → Option α) : List Char → Option α
  | [] => f []
  | c :: cs =>
    match f (c :: cs) with
    | some a => some a
    | none => scanFirst f cs

/-- Case-sensitive literal test at the head of the input. -/
def startsWithLit : List Char → List Char → Bool
  | [], _ => true
  | _ :: _, [] => false
  | p :: ps, c :: cs => p == c && startsWithLit ps cs

/-- Case-sensitive substring test (String.prototype.includes). -/
def containsLit (pat : List Char) : List Char → Bool
  | [] => startsWithLit pat []
  | c :: cs => startsWithLit pat (c :: cs) || containsLit pat cs

/-- Numeric value of a list of decimal digits (parseInt on the digits
captured by a digit group). -/
def digitsVal (ds : List Char) : Nat :=
  ds.foldl (fun n c => n * 10 + (c.toNat - 48)) 0

/-- Consume one-or-more whitespace (\s followed by +): fails when the
head is not whitespace, otherwise consumes the maximal whitespace run.
The classes that follow \s in the source patterns are disjoint from it,
so the greedy run never needs to backtrack. -/
def wsPlus : List Char → Option (List Char)
  | [] => none
  | c :: cs => if isWsChar c then some (cs.dropWhile isWsChar) else none

/-- Trim of leading and trailing whitespace (String.prototype.trim). -/
def trimChars (l : List Char) : List Char :=
  ((l.dropWhile isWsChar).reverse.dropWhile isWsChar).reverse

/- ## Numeric and date parsing models -/

/-- Value of a captured fraction part: digits interpreted after the
decimal point. -/
def fracVal (ds : List Char) : Rat :=
  (digitsVal ds : Rat) / ((10 : Rat) ^ ds.length)

/-- Unsigned decimal prefix: digits with an optional fraction, or a
fraction alone; trailing non-numeric characters are ignored, which is
the parseFloat discipline. -/
def parseDecChars (l : List Char) : Option Rat :=
  let ds := l.takeWhile Char.isDigit
  let r := l.drop ds.length
  match r with
  | '.' :: r2 =>
    let fs := r2.takeWhile Char.isDigit
    if ds.isEmpty && fs.isEmpty then none
    else some ((digitsVal ds : Rat) + fracVal fs)
  | _ => if ds.isEmpty then none else some ((digitsVal ds : Rat))

/-- Unsigned decimal that must consume the whole input, the ToNumber
discipline for string operands. -/
def parseDecAllChars (l : List Char) : Option Rat :=
  let ds := l.takeWhile Char.isDigit
  let r := l.drop ds.length
  match r with
  | '.' :: r2 =>
    let fs := r2.takeWhile Char.isDigit
    if ds.isEmpty && fs.isEmpty then none
    else if (r2.drop fs.length).isEmpty then some ((digitsVal ds : Rat) + fracVal fs)
    else none
  | [] => if ds.isEmpty then none else some ((digitsVal ds : Rat))
  | _ => none

/-- Model of parseFloat on a string: leading whitespace skipped,
optional sign, then a decimal prefix. -/
def jsParseFloat (s : String) : Option Rat :=
  let l := s.toList.dropWhile isWsChar
  match l with
  | '-' :: r => (parseDecChars r).map Neg.neg
  | '+' :: r => parseDecChars r
  | _ => parseDecChars l

/-- Model of ToNumber for the relational operators: null is 0, a number
is itself, a Date contributes its time value, a string is a full decimal
literal (the empty or all-whitespace string is 0) and anything else is
NaN, rendered as none. -/
def jsToNumber : Value → Option Rat
  | Value.null => some 0
  | Value.num q => some q
  | Value.date t => some (t : Rat)
  | Value.str s =>
    let l := trimChars s.toList
    match l with
    | [] => some 0
    | '-' :: r => (parseDecAllChars r).map Neg.neg
    | '+' :: r => parseDecAllChars r
    | _ => parseDecAllChars l

/-- Lexicographic code-point comparison of strings as character lists. -/
def lexLtChars : List Char → List Char → Bool
  | [], [] => false
  | [], _ :: _ => true
  | _ :: _, [] => false
  | a :: as, b :: bs => a < b || (a == b && lexLtChars as bs)

/-- Model of the JavaScript relational operator a greater-than b: when
both operands are strings the comparison is lexicographic, otherwise
both are converted with ToNumber and a NaN on either side makes the
comparison false. -/
def jsGT : Value → Value → Bool
  | Value.str a, Value.str b => lexLtChars b.toList a.toList
  | a, b =>
    match jsToNumber a, jsToNumber b with
    | some x, some y => decide (y < x)
    | _, _ => false

def isLeapYear (y : Int) : Bool :=
  (y % 4 == 0 && y % 100 != 0) || y % 400 == 0

def daysInMonth (y m : Int) : Int :=
  if m == 2 then (if isLeapYear y then 29 else 28)
  else if m == 4 || m == 6 || m == 9 || m == 11 then 30
  else 31

/-- Days from the civil epoch 1970-01-01 for a proleptic Gregorian date
(the standard days-from-civil computation; the years produced by the
date parser are four-digit, so every intermediate quantity is
nonnegative). -/
def daysFromCivil (y m d : Int) : Int :=
  let y2 := if m ≤ 2 then y - 1 else y
  let era := (if 0 ≤ y2 then y2 else y2 - 399) / 400
  let yoe := y2 - era * 400
  let mp := (m + 9) % 12
  let doy := (153 * mp + 2) / 5 + d - 1
  let doe := yoe * 365 + yoe / 4 - yoe / 100 + doy
  era * 146097 + doe - 719468

/-- Model of the legacy dotted date forms the V8 parser accepts: a
string that is exactly two dot-separated digit runs.  A first number up
to 31 is a month and the second number a day (month 1 to 12, day 1 to
31, out-of-range days extrapolated linearly by the day-of-year
arithmetic as the MakeDay operation does); a first number above 31 is a
year and the second number a month (1 to 12) with day 1.  Forms with
more than one dot or with non-digit components are not modelled and
yield none.  The host evaluates these dates in local time; the model
uses UTC, a common offset no claim observes. -/
def jsDateParseDotted (l : List Char) : Option Int :=
  let n1 := l.takeWhile Char.isDigit
  let r := l.drop n1.length
  match r with
  | '.' :: r2 =>
    let n2 := r2.takeWhile Char.isDigit
    if n1.isEmpty ∨ n2.isEmpty ∨ ¬(r2.drop n2.length).isEmpty then none
    else
      let a : Int := (digitsVal n1 : Nat)
      let b : Int := (digitsVal n2 : Nat)
      if a ≤ 31 then
        if 1 ≤ a ∧ a ≤ 12 ∧ 1 ≤ b ∧ b ≤ 31 then
          some (daysFromCivil 2001 a b * 86400000)
        else none
      else if 1 ≤ b ∧ b ≤ 12 then some (daysFromCivil a b 1 * 86400000)
      else none
  | _ => none

/-- Model of Date.parse: an ISO calendar-date string YYYY-MM-DD with a
valid month and day parses to UTC midnight of that day, and the legacy
dotted month.day and year.month forms accepted by the host parser go
through the dotted model, so decimal price strings such as 12.31 or
10.31 are valid dates here as they are in the host; every other string
yields none (NaN).  Decimal strings whose components fall outside the
month and day ranges, such as 10.45, 2.00 or 450.00, are NaN in the
host and in the model. -/
def jsDateParse (s : String) : Option Int :=
  match s.toList with
  | [y1, y2, y3, y4, '-', m1, m2, '-', d1, d2] =>
    if ([y1, y2, y3, y4, m1, m2, d1, d2]).all Char.isDigit then
      let y : Int := (digitsVal [y1, y2, y3, y4] : Nat)
      let m : Int := (digitsVal [m1, m2] : Nat)
      let d : Int := (digitsVal [d1, d2] : Nat)
      if 1 ≤ m ∧ m ≤ 12 ∧ 1 ≤ d ∧ d ≤ daysInMonth y m then
        some (daysFromCivil y m d * 86400000)
      else none
    else none
  | l => jsDateParseDotted l

/-- Truncation toward zero, the ToIntegerOrInfinity step of the Date
constructor on a fractional number. -/
def ratTrunc (q : Rat) : Int := if 0 ≤ q then q.floor else -((-q).floor)

/-- Time value of new Date(v): a Date keeps its time value, a number is
truncated, a string goes through Date.parse, and null yields time 0
(ToNumber null).  none renders an invalid date (NaN time value). -/
def newDateEpoch : Value → Option Int
  | Value.date t => some t
  | Value.num q => some (ratTrunc q)
  | Value.str s => jsDateParse s
  | Value.null => some 0

/- ## The regex models, one scanner per pattern of the source -/

/-- Position matcher for the LIMIT pattern: the literal, one or more
whitespace characters, then a nonempty greedy digit run captured as the
row cap. -/
def matchLimitAt (s : List Char) : Option Nat :=
  match dropLitCI "limit".toList s with
  | none => none
  | some r =>
    match wsPlus r with
    | none => none
    | some r2 =>
      let ds := r2.takeWhile Char.isDigit
      if ds.isEmpty then none else some (digitsVal ds)

def findLimit (s : List Char) : Option Nat := scanFirst matchLimitAt s

/-- Position matcher for the SELECT TOP pattern. -/
def matchTopAt (s : List Char) : Option Nat :=
  match dropLitCI "select".toList s with
  | none => none
  | some r =>
    match wsPlus r with
    | none => none
    | some r2 =>
      match dropLitCI "top".toList r2 with
      | none => none
      | some r3 =>
        match wsPlus r3 with
        | none => none
        | some r4 =>
          let ds := r4.takeWhile Char.isDigit
          if ds.isEmpty then none else some (digitsVal ds)

def findTop (s : List Char) : Option Nat := scanFirst matchTopAt s

/-- Position matcher for a field equality pattern: the field literal
(case-insensitive), optional whitespace, the equals sign, optional
whitespace, a quote, a nonempty greedy word-character run captured with
its original case, and a closing quote (either quote character, not
necessarily the opening one). -/
def matchEqAt (fld : List Char) (s : List Char) : Option String :=
  match dropLitCI fld s with
  | none => none
  | some r =>
    match r.dropWhile isWsChar with
    | '=' :: r2 =>
      match r2.dropWhile isWsChar with
      | q :: r4 =>
        if isQuoteC q then
          let w := r4.takeWhile isWordC
          match r4.drop w.length with
          | q2 :: _ => if isQuoteC q2 && !w.isEmpty then some (String.mk w) else none
          | [] => none
        else none
      | [] => none
    | _ => none

def findEqCapture (fld : String) (s : List Char) : Option String :=
  scanFirst (matchEqAt fld.toList) s

/-- The current-time alternation of the date comparison patterns. -/
def nowFnAt (s : List Char) : Bool :=
  (dropLitCI "getdate".toList s).isSome ||
  (dropLitCI "current_date".toList s).isSome ||
  (dropLitCI "now".toList s).isSome

/-- Position matcher for a field less-than-now pattern. -/
def matchDateCmpAt (fld : List Char) (s : List Char) : Option Unit :=
  match dropLitCI fld s with
  | none => none
  | some r =>
    match r.dropWhile isWsChar with
    | '<' :: r2 => if nowFnAt (r2.dropWhile isWsChar) then some () else none
    | _ => none

def hasDateCmp (fld : String) (s : List Char) : Bool :=
  (scanFirst (matchDateCmpAt fld.toList) s).isSome

/-- Position matcher for the low-inventory pattern: quantity on hand,
optional whitespace, the less-or-equal sign, optional whitespace, the
reorder level. -/
def matchLowInvAt (s : List Char) : Option Unit :=
  match dropLitCI "quantity_on_hand".toList s with
  | none => none
  | some r =>
    match r.dropWhile isWsChar with
    | '<' :: '=' :: r2 =>
      match dropLitCI "reorder_level".toList (r2.dropWhile isWsChar) with
      | some _ => some ()
      | none => none
    | _ => none

def hasLowInv (s : List Char) : Bool := (scanFirst matchLowInvAt s).isSome

/-- Position matcher for the quarter-window pattern: order date,
greater-or-equal, the DATEADD literal with its opening parenthesis and
comma, optional whitespace, then the minus-one literal. -/
def matchQuarterAt (s : List Char) : Option Unit :=
  match dropLitCI "order_date".toList s with
  | none => none
  | some r =>
    match r.dropWhile isWsChar with
    | '>' :: '=' :: r2 =>
      match dropLitCI "dateadd(quarter,".toList (r2.dropWhile isWsChar) with
      | none => none
      | some r3 =>
        match dropLitCI "-1".toList (r3.dropWhile isWsChar) with
        | some _ => some ()
        | none => none
    | _ => none

def hasQuarter (s : List Char) : Bool := (scanFirst matchQuarterAt s).isSome

/-- Position matcher for the hardcoded delayed-or pattern: a status
equality with the literal value delayed, then mandatory whitespace and
the OR keyword. -/
def matchDelayedOrAt (s : List Char) : Option Unit :=
  match dropLitCI "status".toList s with
  | none => none
  | some r =>
    match r.dropWhile isWsChar with
    | '=' :: r2 =>
      match r2.dropWhile isWsChar with
      | q :: r3 =>
        if isQuoteC q then
          match dropLitCI "delayed".toList r3 with
          | none => none
          | some r4 =>
            match r4 with
            | q2 :: r5 =>
              if isQuoteC q2 then
                match wsPlus r5 with
                | none => none
                | some r6 =>
                  match dropLitCI "or".toList r6 with
                  | some _ => some ()
                  | none => none
              else none
            | [] => none
        else none
      | [] => none
    | _ => none

def hasDelayedOr (s : List Char) : Bool := (scanFirst matchDelayedOrAt s).isSome

/- ## The WHERE-segment extraction with its lazy capture -/

/-- The dot class of the extraction pattern: any character except a line
terminator. -/
def dotOk (c : Char) : Bool := !(c == '\n' || c == '\r')

/-- The terminator alternation of the extraction pattern: the ORDER BY,
LIMIT or TOP literal, or the end of the input. -/
def termAt (s : List Char) : Bool :=
  (dropLitCI "order by".toList s).isSome ||
  (dropLitCI "limit".toList s).isSome ||
  (dropLitCI "top".toList s).isSome ||
  s.isEmpty

/-- The lazy nonempty capture: the shortest nonempty run of dot-class
characters after which the terminator matches, exactly the expansion
order of a lazy quantifier. -/
def lazyCapAux : List Char → Option (List Char)
  | [] => none
  | c :: cs =>
    if dotOk c then
      if termAt cs then some [c]
      else
        match lazyCapAux cs with
        | some t => some (c :: t)
        | none => none
    else none

/-- Backtracking of the greedy one-or-more whitespace before the lazy
capture: the whitespace run is tried at its maximal length first and
shortened only when no capture completes, the engine backtracking
order. -/
def tryWlens (r : List Char) : Nat → Option (List Char)
  | 0 => none
  | n + 1 =>
    match lazyCapAux (r.drop (n + 1)) with
    | some cap => some cap
    | none => tryWlens r n

/-- Position matcher for the WHERE extraction: the WHERE literal, one or
more whitespace characters, then the lazy capture up to the first
terminator. -/
def matchWhereAt (s : List Char) : Option (List Char) :=
  match dropLitCI "where".toList s with
  | none => none
  | some r => tryWlens r ((r.takeWhile isWsChar).length)

/-- The raw capture of the WHERE extraction on the full SQL string;
the caller trims it. -/
def findWhereClause (s : List Char) : Option (List Char) :=
  scanFirst matchWhereAt s

/- ## The predicate matcher -/

/-- The injected clock: the current wall-clock time value of new Date()
and the time value three calendar months before it.  The second field
models the host computation new Date() followed by setMonth of the
current month minus three, which is calendar arithmetic of the runtime;
it is injected rather than recomputed because no claim constrains the
relation between the two fields. -/
structure Clock where
  now : Int
  threeMonthsAgo : Int

/-- The status equality check: when the pattern matches the clause, the
record passes only if its status field is exactly the captured string
(strict equality, so a missing or non-string status never passes). -/
def statusCheck (wc : List Char) (row : Rec) : Bool :=
  match findEqCapture "status" wc with
  | none => true
  | some v => decide (getF row "status" = Value.str v)

def priorityCheck (wc : List Char) (row : Rec) : Bool :=
  match findEqCapture "priority" wc with
  | none => true
  | some v => decide (getF row "priority" = Value.str v)

def regionCheck (wc : List Char) (row : Rec) : Bool :=
  match findEqCapture "region" wc with
  | none => true
  | some v => decide (getF row "region" = Value.str v)

/-- The overdue check: when the pattern matches and the due-date field
is truthy, the record is excluded when its due date is not strictly
before now; an invalid date compares as NaN and never excludes. -/
def dueDateCheck (wc : List Char) (clk : Clock) (row : Rec) : Bool :=
  if hasDateCmp "due_date" wc then
    let v := getF row "dueDate"
    if truthy v then
      match newDateEpoch v with
      | some e => decide (e < clk.now)
      | none => true
    else true
  else true

def schedDateCheck (wc : List Char) (clk : Clock) (row : Rec) : Bool :=
  if hasDateCmp "scheduled_date" wc then
    let v := getF row "scheduledDate"
    if truthy v then
      match newDateEpoch v with
      | some e => decide (e < clk.now)
      | none => true
    else true
  else true

/-- The low-inventory check: the comparison runs only when both fields
are truthy, so a missing, null or zero field skips the check and the
record is kept. -/
def lowInvCheck (wc : List Char) (row : Rec) : Bool :=
  if hasLowInv wc then
    let q := getF row "quantityOnHand"
    let l := getF row "reorderLevel"
    if truthy q && truthy l then !(jsGT q l) else true
  else true

/-- The quarter-window check: when the pattern matches and the
order-date field is truthy, the record is excluded when its order date
is strictly before the three-months-ago time. -/
def quarterCheck (wc : List Char) (clk : Clock) (row : Rec) : Bool :=
  if hasQuarter wc then
    let v := getF row "orderDate"
    if truthy v then
      match newDateEpoch v with
      | some e => !(decide (e < clk.threeMonthsAgo))
      | none => true
    else true
  else true

/-- The hardcoded delayed-or check: keep records whose status is exactly
delayed, or whose status is in-progress with a truthy scheduled date
strictly before now. -/
def delayedOrCheck (wc : List Char) (clk : Clock) (row : Rec) : Bool :=
  if hasDelayedOr wc then
    let isDelayed := decide (getF row "status" = Value.str "delayed")
    let sd := getF row "scheduledDate"
    let isOverdue := decide (getF row "status" = Value.str "in-progress") && truthy sd &&
      (match newDateEpoch sd with
       | some e => decide (e < clk.now)
       | none => false)
    isDelayed || isOverdue
  else true

/-- A row passes the filter callback when none of the eight recognized
checks rejects it; the sequential early returns of the source are the
conjunction of the independent checks. -/
def rowPasses (wc : List Char) (clk : Clock) (row : Rec) : Bool :=
  statusCheck wc row && priorityCheck wc row && regionCheck wc row &&
  dueDateCheck wc clk row && schedDateCheck wc clk row && lowInvCheck wc row &&
  quarterCheck wc clk row && delayedOrCheck wc clk row

/-- applyWhereConditions: when the extraction finds no WHERE segment the
input is returned unchanged, otherwise the rows are filtered against the
trimmed clause text. -/
def applyWhereConditions (data : List Rec) (sql : String) (clk : Clock) : List Rec :=
  match findWhereClause sql.toList with
  | none => data
  | some cap => data.filter (rowPasses (trimChars cap) clk)

/- ## The sort stage -/

inductive Dir where
  | asc : Dir
  | desc : Dir
deriving DecidableEq, Repr

/-- Direction of the optional trailing group: mandatory whitespace then
the ASC or DESC literal tried in that order as a prefix; a missing or
unrecognized group defaults to ascending. -/
def dirOf (rest : List Char) : Dir :=
  match wsPlus rest with
  | none => Dir.asc
  | some r3 =>
    if (dropLitCI "asc".toList r3).isSome then Dir.asc
    else if (dropLitCI "desc".toList r3).isSome then Dir.desc
    else Dir.asc

/-- Position matcher for the ORDER BY pattern: the literal with its
single interior space, one or more whitespace characters, a nonempty
greedy word-character run captured as the column token, then the
optional direction group. -/
def matchOrderByAt (s : List Char) : Option (String × Dir) :=
  match dropLitCI "order by".toList s with
  | none => none
  | some r =>
    match wsPlus r with
    | none => none
    | some r2 =>
      let w := r2.takeWhile isWordC
      if w.isEmpty then none
      else some (String.mk w, dirOf (r2.drop w.length))

def findOrderBy (s : List Char) : Option (String × Dir) :=
  scanFirst matchOrderByAt s

/-- mapColumnName: the fixed snake-case-to-camel-case table, applied to
the lower-cased token, with unknown tokens passed through unchanged. -/
def mapColumnName (tok : String) : String :=
  let k := String.mk (tok.toList.map lcChar)
  if k == "order_id" then "orderId"
  else if k == "order_number" then "orderNumber"
  else if k == "customer_name" then "customerName"
  else if k == "order_date" then "orderDate"
  else if k == "total_amount" then "totalAmount"
  else if k == "sales_rep" then "salesRep"
  else if k == "work_order_id" then "workOrderId"
  else if k == "work_order_number" then "workOrderNumber"
  else if k == "assigned_to" then "assignedTo"
  else if k == "scheduled_date" then "scheduledDate"
  else if k == "completion_date" then "completionDate"
  else if k == "invoice_id" then "invoiceId"
  else if k == "invoice_number" then "invoiceNumber"
  else if k == "vendor_name" then "vendorName"
  else if k == "invoice_date" then "invoiceDate"
  else if k == "due_date" then "dueDate"
  else if k == "payment_terms" then "paymentTerms"
  else if k == "item_id" then "itemId"
  else if k == "item_code" then "itemCode"
  else if k == "item_name" then "itemName"
  else if k == "quantity_on_hand" then "quantityOnHand"
  else if k == "unit_price" then "unitPrice"
  else if k == "reorder_level" then "reorderLevel"
  else tok

/-- The date-branch test of the comparator: the left value is a Date
object, or a string that Date.parse accepts. -/
def isDateBranch : Value → Bool
  | Value.date _ => true
  | Value.str s => (jsDateParse s).isSome
  | _ => false

/-- parseFloat applied to a row value: a number is itself, a string goes
through the prefix parser, and null or a Date stringifies to something
non-numeric, hence NaN. -/
def parseFloatVal : Value → Option Rat
  | Value.num q => some q
  | Value.str s => jsParseFloat s
  | _ => none

/-- The number-branch test of the comparator: the left value is a number
or parses with parseFloat. -/
def isNumBranch (v : Value) : Bool :=
  match v with
  | Value.num _ => true
  | _ => (parseFloatVal v).isSome

/-- String conversion for the final localeCompare branch.  Number and
date formatting approximate the host String() conversion; no claim
exercises this branch. -/
def strOfVal : Value → String
  | Value.str s => s
  | Value.num q => toString q
  | Value.date t => toString t
  | Value.null => "null"

/-- localeCompare modelled as code-point comparison. -/
def localeCmp (a b : String) : Int :=
  if lexLtChars a.toList b.toList then -1
  else if a == b then 0 else 1

/-- The comparator of the sort stage, on the two resolved column values:
null or undefined on the left sorts after anything, null or undefined on
the right sorts before anything, then the date, number and string
branches are selected by the dynamic type of the left value; a NaN
arithmetic result is rendered as 0, which is how the ECMAScript
SortCompare operation consumes a NaN comparator result. -/
def cmpVals (dir : Dir) (a b : Value) : Rat :=
  if a = Value.null then 1
  else if b = Value.null then -1
  else if isDateBranch a then
    match newDateEpoch a, newDateEpoch b with
    | some x, some y => if dir = Dir.desc then (y : Rat) - (x : Rat) else (x : Rat) - (y : Rat)
    | _, _ => 0
  else if isNumBranch a then
    match parseFloatVal a, parseFloatVal b with
    | some x, some y => if dir = Dir.desc then y - x else x - y
    | _, _ => 0
  else
    let c := localeCmp (strOfVal a) (strOfVal b)
    ((if dir = Dir.desc then -c else c : Int) : Rat)

/-- Record order induced by the comparator on the resolved column. -/
def leOf (dir : Dir) (col : String) (a b : Rec) : Bool :=
  decide (cmpVals dir (getF a col) (getF b col) ≤ 0)

/-- Stable insertion of one element into a list ordered by a boolean
comparator-order. -/
def insertCmp {α : Type} (le : α → α → Bool) (x : α) : List α → List α
  | [] => [x]
  | y :: ys => if le x y then x :: y :: ys else y :: insertCmp le x ys

/-- Stable comparison sort, the model of Array.prototype.sort with a
comparator. -/
def sortCmp {α : Type} (le : α → α → Bool) : List α → List α
  | [] => []
  | x :: xs => insertCmp le x (sortCmp le xs)

/-- applyOrderBy: when the pattern finds no ORDER BY clause the input is
returned unchanged, otherwise the rows are sorted by the resolved
column under the captured direction. -/
def applyOrderBy (data : List Rec) (sql : String) : List Rec :=
  match findOrderBy sql.toList with
  | none => data
  | some (tok, dir) => sortCmp (leOf dir (mapColumnName tok)) data

/- ## The limit stage -/

/-- applyLimit: the LIMIT pattern is consulted first, then the SELECT
TOP pattern; the first match truncates to its captured count and with
neither match the input is returned unchanged. -/
def applyLimit (data : List Rec) (sql : String) : List Rec :=
  match findLimit sql.toList with
  | some n => data.take n
  | none =>
    match findTop sql.toList with
    | some n => data.take n
    | none => data

/- ## The query orchestrator -/

/-- The error taxonomy of executeSqlQuery.  The stage functions of this
model are total, so the execution-error wrapper of the try/catch block
can never fire; its constructor is kept for the taxonomy. -/
inductive SqlError where
  | unsupportedStatement : SqlError
  | unknownTable : SqlError
  | executionError : String → SqlError
deriving DecidableEq, Repr

/-- The four canonical record collections of the in-memory store. -/
structure MemStorage where
  salesOrders : List Rec
  workOrders : List Rec
  invoices : List Rec
  inventoryItems : List Rec
deriving DecidableEq

/-- The staged pipeline applied to the selected collection: predicate
matcher, then sort, then limit. -/
def runStages (data : List Rec) (sql : String) (clk : Clock) : List Rec :=
  applyLimit (applyOrderBy (applyWhereConditions data sql clk) sql) sql

/-- The lower-cased, trimmed SQL used for the SELECT check and the
table-name substring tests. -/
def lowerTrim (sql : String) : List Char :=
  trimChars (sql.toList.map lcChar)

/-- executeSqlQuery: reject non-SELECT input, select the table by the
first matching of the four name substrings in their fixed priority
order, and run the staged pipeline on a copy of that collection (the
copying is invisible to this immutable-list model; the heap model below
accounts for it). -/
def executeSqlQuery (st : MemStorage) (sql : String) (clk : Clock) :
    Except SqlError (List Rec) :=
  if startsWithLit "select".toList (lowerTrim sql) then
    if containsLit "sales_orders".toList (lowerTrim sql) then
      Except.ok (runStages st.salesOrders sql clk)
    else if containsLit "work_orders".toList (lowerTrim sql) then
      Except.ok (runStages st.workOrders sql clk)
    else if containsLit "invoices".toList (lowerTrim sql) then
      Except.ok (runStages st.invoices sql clk)
    else if containsLit "inventory_items".toList (lowerTrim sql) then
      Except.ok (runStages st.inventoryItems sql clk)
    else Except.error SqlError.unknownTable
  else Except.error SqlError.unsupportedStatement

/- ## Heap model of the array aliasing

The four collections live in mutable arrays; executeSqlQuery copies the
selected array with a spread before the stages run, filter and slice
allocate fresh arrays, and sort mutates its receiver in place.  The heap
model makes those allocations and the one in-place mutation explicit so
that the frame property over the canonical store is a real statement. -/

/-- The heap: array references are indices into a list of array
contents. -/
abbrev Heap := List (List Rec)

def hget (h : Heap) (r : Nat) : List Rec := h.getD r []

def hset (h : Heap) (r : Nat) (v : List Rec) : Heap := h.set r v

/-- Allocation of a fresh array: the new reference is the current heap
size. -/
def halloc (h : Heap) (v : List Rec) : Nat × Heap := (h.length, h ++ [v])

/-- References to the four canonical collections held by the store. -/
structure StoreRefs where
  salesRef : Nat
  worksRef : Nat
  invsRef : Nat
  itemsRef : Nat

/-- applyWhereConditions on the heap: with no WHERE segment the very
same array is returned; otherwise filter allocates a fresh array. -/
def applyWhereH (h : Heap) (r : Nat) (sql : String) (clk : Clock) : Nat × Heap :=
  match findWhereClause sql.toList with
  | none => (r, h)
  | some cap => halloc h ((hget h r).filter (rowPasses (trimChars cap) clk))

/-- applyOrderBy on the heap: with no ORDER BY clause the same array is
returned; otherwise sort mutates the array in place and returns the same
reference. -/
def applyOrderByH (h : Heap) (r : Nat) (sql : String) : Nat × Heap :=
  match findOrderBy sql.toList with
  | none => (r, h)
  | some (tok, dir) => (r, hset h r (sortCmp (leOf dir (mapColumnName tok)) (hget h r)))

/-- applyLimit on the heap: slice allocates a fresh array; with neither
clause the same array is returned. -/
def applyLimitH (h : Heap) (r : Nat) (sql : String) : Nat × Heap :=
  match findLimit sql.toList with
  | some n => halloc h ((hget h r).take n)
  | none =>
    match findTop sql.toList with
    | some n => halloc h ((hget h r).take n)
    | none => (r, h)

/-- Table selection on the references, in the fixed priority order. -/
def chooseRef (refs : StoreRefs) (ls : List Char) : Option Nat :=
  if containsLit "sales_orders".toList ls then some refs.salesRef
  else if containsLit "work_orders".toList ls then some refs.worksRef
  else if containsLit "invoices".toList ls then some refs.invsRef
  else if containsLit "inventory_items".toList ls then some refs.itemsRef
  else none

/-- executeSqlQuery on the heap: validation, table selection, the spread
copy into a fresh array, then the three stages. -/
def executeSqlQueryH (h : Heap) (refs : StoreRefs) (sql : String) (clk : Clock) :
    Except SqlError Nat × Heap :=
  let ls := lowerTrim sql
  if startsWithLit "select".toList ls then
    match chooseRef refs ls with
    | none => (Except.error SqlError.unknownTable, h)
    | some r0 =>
      let p1 := halloc h (hget h r0)
      let p2 := applyWhereH p1.2 p1.1 sql clk
      let p3 := applyOrderByH p2.2 p2.1 sql
      let p4 := applyLimitH p3.2 p3.1 sql
      (Except.ok p4.1, p4.2)
  else (Except.error SqlError.unsupportedStatement, h)

/- ## The query-record store -/

/-- A query lifecycle record, the Query row of the schema: the nullable
text fields are options, status is a string, createdAt is an epoch
time. -/
structure QueryRec where
  id : String
  userQuestion : String
  generatedSql : Option String
  aiInterpretation : Option String
  resultData : Option String
  status : String
  errorMessage : Option String
  executionTimeMs : Option Int
  createdAt : Int
deriving DecidableEq, Repr

/-- A Partial of Query: every field optional; an absent field leaves the
stored field unchanged under the spread merge. -/
structure QueryPatch where
  id : Option String := none
  userQuestion : Option String := none
  generatedSql : Option (Option String) := none
  aiInterpretation : Option (Option String) := none
  resultData : Option (Option String) := none
  status : Option String := none
  errorMessage : Option (Option String) := none
  executionTimeMs : Option (Option Int) := none
  createdAt : Option Int := none
deriving DecidableEq, Repr

/-- The spread merge of a record with a patch: each present patch field
overwrites the stored field. -/
def applyPatch (q : QueryRec) (p : QueryPatch) : QueryRec :=
  { id := p.id.getD q.id
    userQuestion := p.userQuestion.getD q.userQuestion
    generatedSql := p.generatedSql.getD q.generatedSql
    aiInterpretation := p.aiInterpretation.getD q.aiInterpretation
    resultData := p.resultData.getD q.resultData
    status := p.status.getD q.status
    errorMessage := p.errorMessage.getD q.errorMessage
    executionTimeMs := p.executionTimeMs.getD q.executionTimeMs
    createdAt := p.createdAt.getD q.createdAt }

/-- The record created by createQuery: the fresh identifier, the
question, null generated fields, status processing, and the creation
time. -/
def mkQuery (id uq : String) (t : Int) : QueryRec :=
  { id := id, userQuestion := uq, generatedSql := none, aiInterpretation := none
    resultData := none, status := "processing", errorMessage := none
    executionTimeMs := none, createdAt := t }

/-- The query map in insertion order, the Map of the store. -/
abbrev QMap := List (String × QueryRec)

def qget : QMap → String → Option QueryRec
  | [], _ => none
  | (k, v) :: rest, id => if k == id then some v else qget rest id

/-- Map.set: replace the binding when the key exists, else append. -/
def qset : QMap → String → QueryRec → QMap
  | [], id, v => [(id, v)]
  | (k, w) :: rest, id, v =>
    if k == id then (id, v) :: rest else (k, w) :: qset rest id v

/-- One operation against the query store: createQuery with its
generated identifier, question and creation time, or updateQuery with a
partial record. -/
inductive QOp where
  | create : String → String → Int → QOp
  | update : String → QueryPatch → QOp
deriving DecidableEq

/-- createQuery stores the fresh record; updateQuery merges the patch
into the existing record and is a no-op on an unknown identifier. -/
def stepQ (m : QMap) : QOp → QMap
  | QOp.create id uq t => qset m id (mkQuery id uq t)
  | QOp.update id p =>
    match qget m id with
    | none => m
    | some q => qset m id (applyPatch q p)

def runQ (ops : List QOp) : QMap := ops.foldl stepQ []

/-- The status a given identifier holds after a sequence of
operations. -/
def statusAt (ops : List QOp) (id : String) : Option String :=
  (qget (runQ ops) id).map QueryRec.status

/-- One well-formedness step of the usage discipline the transition
invariant needs: a create uses an identifier never created before, and a
status-bearing update carries success or error and is the only
status-bearing update for its identifier. -/
def wfStep (created statusDone : List String) : QOp → Bool
  | QOp.create id _ _ => !(created.contains id)
  | QOp.update id p =>
    match p.status with
    | none => true
    | some s => (s == "success" || s == "error") && !(statusDone.contains id)

/-- Accumulator transition matching wfStep. -/
def wfAcc (created statusDone : List String) : QOp → List String × List String
  | QOp.create id _ _ => (id :: created, statusDone)
  | QOp.update id p =>
    match p.status with
    | none => (created, statusDone)
    | some _ => (created, id :: statusDone)

/-- The usage discipline over a whole operation sequence. -/
def wfOps (created statusDone : List String) : List QOp → Bool
  | [] => true
  | op :: rest =>
    wfStep created statusDone op &&
    wfOps (wfAcc created statusDone op).1 (wfAcc created statusDone op).2 rest

/- ## Derived notions and concrete fixtures used by the theorems -/

/-- The delayed-work-orders query of the specification scenario. -/
def sqlDelayedOr : String :=
  "SELECT * FROM work_orders WHERE status = 'delayed' OR (status = 'in-progress' AND scheduled_date < GETDATE()) ORDER BY scheduled_date ASC LIMIT 20"

def woDelayed : Rec :=
  [("workOrderId", Value.str "WO-1"), ("status", Value.str "delayed"),
   ("scheduledDate", Value.date 1000)]

def woInProgress : Rec :=
  [("workOrderId", Value.str "WO-2"), ("status", Value.str "in-progress"),
   ("scheduledDate", Value.date 500)]

def woCompleted : Rec :=
  [("workOrderId", Value.str "WO-3"), ("status", Value.str "completed"),
   ("scheduledDate", Value.date 2000)]

/-- The three-record work-order fixture of the scenario. -/
def woStore : MemStorage := ⟨[], [woDelayed, woInProgress, woCompleted], [], []⟩

/-- A concrete evaluation clock: both scheduled dates of the fixture lie
strictly before now. -/
def clkFix : Clock := ⟨10000, 0⟩

def sqlStatusPending : String := "SELECT * FROM sales_orders WHERE status = 'pending'"

/-- The raw WHERE capture of the status-pending query. -/
def capStatusPending : List Char := "status = 'pending'".toList

def soPending : Rec := [("orderId", Value.str "SO-1"), ("status", Value.str "pending")]

def soDone : Rec := [("orderId", Value.str "SO-2"), ("status", Value.str "completed")]

def sqlLowInv : String :=
  "SELECT * FROM inventory_items WHERE quantity_on_hand <= reorder_level"

/-- The raw WHERE capture of the low-inventory query. -/
def capLowInv : List Char := "quantity_on_hand <= reorder_level".toList

/-- Both fields present, quantity 80 strictly greater than the reorder
level 0; the zero is falsy. -/
def itemZeroReorder : Rec :=
  [("itemId", Value.str "ITM-0"), ("quantityOnHand", Value.num 80),
   ("reorderLevel", Value.num 0)]

def itemLow : Rec :=
  [("itemId", Value.str "ITM-A"), ("quantityOnHand", Value.num 10),
   ("reorderLevel", Value.num 50)]

def itemHigh : Rec :=
  [("itemId", Value.str "ITM-B"), ("quantityOnHand", Value.num 80),
   ("reorderLevel", Value.num 20)]

def sqlLimitTwo : String := "SELECT * FROM invoices LIMIT 2"

def sqlLimitJunk : String := "SELECT * FROM invoices LIMIT 2abc"

def sqlLimitAbc : String := "SELECT * FROM invoices LIMIT abc"

def invoiceA : Rec := [("invoiceId", Value.str "I-1")]

def invoiceB : Rec := [("invoiceId", Value.str "I-2")]

def invoiceC : Rec := [("invoiceId", Value.str "I-3")]

def patchSuccess : QueryPatch := { status := some "success" }

def patchError : QueryPatch := { status := some "error" }

/-- A status-free update, carrying only a generated SQL text. -/
def patchSql : QueryPatch := { generatedSql := some (some "SELECT 1") }

/-- A trace that creates one record and marks it success. -/
def opsC9 : List QOp :=
  [QOp.create "q1" "question" 0, QOp.update "q1" patchSuccess]

/-- A concrete heap holding one singleton collection per table. -/
def heapFix : Heap := [[woDelayed], [woInProgress], [invoiceA], [itemLow]]

def refsFix : StoreRefs := ⟨0, 1, 2, 3⟩

/- ## Generic lemmas about the models -/

theorem scanFirst_eq_none {α : Type} (f : List Char → Option α) (l : List Char)
    (h : ∀ t ∈ l.tails, f t = none) : scanFirst f l = none := by
  induction l with
  | nil =>
    have := h [] (by simp)
    simpa [scanFirst] using this
  | cons c cs ih =>
    have hc := h (c :: cs) (by simp)
    have hrest : ∀ t ∈ cs.tails, f t = none := by
      intro t ht
      exact h t (by simp [List.tails_cons, ht])
    simp [scanFirst, hc, ih hrest]

theorem hget_halloc (h : Heap) (v : List Rec) (i : Nat) (hi : i < h.length) :
    hget (h ++ [v]) i = hget h i := by
  unfold hget
  induction h generalizing i with
  | nil => simp at hi
  | cons a t ih =>
    cases i with
    | zero => simp
    | succ j =>
      simp only [List.cons_append, List.getD_cons_succ]
      exact ih j (by simpa using hi)

theorem hget_hset_ne (h : Heap) (r : Nat) (v : List Rec) (i : Nat) (hne : i ≠ r) :
    hget (hset h r v) i = hget h i := by
  unfold hget hset
  induction h generalizing r i with
  | nil => simp
  | cons a t ih =>
    cases r with
    | zero =>
      cases i with
      | zero => exact absurd rfl hne
      | succ j => simp
    | succ r' =>
      cases i with
      | zero => simp
      | succ j =>
        simp only [List.set_cons_succ, List.getD_cons_succ]
        exact ih r' j (fun hcontra => hne (by simp [hcontra]))

theorem applyWhereH_frame (h : Heap) (r : Nat) (sql : String) (clk : Clock) (n : Nat)
    (hn : n ≤ h.length) (hr : n ≤ r) :
    n ≤ (applyWhereH h r sql clk).2.length ∧ n ≤ (applyWhereH h r sql clk).1 ∧
      ∀ i, i < n → hget (applyWhereH h r sql clk).2 i = hget h i := by
  unfold applyWhereH
  cases hw : findWhereClause sql.toList with
  | none => exact ⟨hn, hr, fun i _ => rfl⟩
  | some cap =>
    refine ⟨by simpa [halloc] using Nat.le_trans hn (by simp), Nat.le_trans hn (by simp [halloc]), ?_⟩
    intro i hi
    exact hget_halloc h _ i (Nat.lt_of_lt_of_le hi hn)

theorem applyOrderByH_frame (h : Heap) (r : Nat) (sql : String) (n : Nat)
    (hn : n ≤ h.length) (hr : n ≤ r) :
    n ≤ (applyOrderByH h r sql).2.length ∧ n ≤ (applyOrderByH h r sql).1 ∧
      ∀ i, i < n → hget (applyOrderByH h r sql).2 i = hget h i := by
  unfold applyOrderByH
  cases hw : findOrderBy sql.toList with
  | none => exact ⟨hn, hr, fun i _ => rfl⟩
  | some td =>
    refine ⟨by simpa [hset] using hn, hr, ?_⟩
    intro i hi
    exact hget_hset_ne h r _ i (Nat.ne_of_lt (Nat.lt_of_lt_of_le hi hr))

theorem applyLimitH_frame (h : Heap) (r : Nat) (sql : String) (n : Nat)
    (hn : n ≤ h.length) (hr : n ≤ r) :
    n ≤ (applyLimitH h r sql).2.length ∧ n ≤ (applyLimitH h r sql).1 ∧
      ∀ i, i < n → hget (applyLimitH h r sql).2 i = hget h i := by
  unfold applyLimitH
  cases hl : findLimit sql.toList with
  | some m =>
    refine ⟨Nat.le_trans hn (by simp [halloc]), Nat.le_trans hn (by simp [halloc]), ?_⟩
    intro i hi
    exact hget_halloc h _ i (Nat.lt_of_lt_of_le hi hn)
  | none =>
    cases ht : findTop sql.toList with
    | some m =>
      refine ⟨Nat.le_trans hn (by simp [halloc]), Nat.le_trans hn (by simp [halloc]), ?_⟩
      intro i hi
      exact hget_halloc h _ i (Nat.lt_of_lt_of_le hi hn)
    | none => exact ⟨hn, hr, fun i _ => rfl⟩

/- ## Lemmas about the query map -/

theorem qget_qset_self (m : QMap) (id : String) (v : QueryRec) :
    qget (qset m id v) id = some v := by
  induction m with
  | nil => simp [qset, qget]
  | cons kv t ih =>
    by_cases hk : kv.1 = id
    · simp [qset, qget, hk]
    · simp [qset, qget, hk, ih]

theorem qget_qset_ne (m : QMap) (id id' : String) (v : QueryRec) (h : id' ≠ id) :
    qget (qset m id v) id' = qget m id' := by
  induction m with
  | nil => simp [qset, qget, Ne.symm h]
  | cons kv t ih =>
    by_cases hk : kv.1 = id
    · simp [qset, qget, hk, Ne.symm h]
    · by_cases hk2 : kv.1 = id'
      · simp [qset, qget, hk, hk2, h]
      · simp [qset, qget, hk, hk2, ih]

/-- The invariant tying the query map to the discipline accumulators:
every stored record was created, a record no longer processing had its
status-bearing update, and every stored status is one of the three
permitted values. -/
def QInv (m : QMap) (created statusDone : List String) : Prop :=
  ∀ id q, qget m id = some q →
    id ∈ created ∧
    (q.status ≠ "processing" → id ∈ statusDone) ∧
    (q.status = "processing" ∨ q.status = "success" ∨ q.status = "error")

theorem qinv_nil : QInv [] [] [] := by
  intro id q hq
  simp [qget] at hq

theorem qinv_step (m : QMap) (c d : List String) (op : QOp)
    (hin : QInv m c d) (hg : wfStep c d op = true) :
    QInv (stepQ m op) (wfAcc c d op).1 (wfAcc c d op).2 := by
  cases op with
  | create id uq t =>
    intro id' q hq
    by_cases h : id' = id
    · subst h
      rw [stepQ, qget_qset_self] at hq
      refine ⟨by simp [wfAcc], ?_, ?_⟩
      · intro hst
        exact absurd (by simp [← Option.some.inj hq, mkQuery]) hst
      · left
        simp [← Option.some.inj hq, mkQuery]
    · rw [stepQ, qget_qset_ne m id id' _ h] at hq
      rcases hin id' q hq with ⟨hc, hd, hs⟩
      exact ⟨by simp [wfAcc, hc], hd, hs⟩
  | update id p =>
    intro id' q hq
    rw [stepQ] at hq
    cases hm : qget m id with
    | none =>
      rw [hm] at hq
      rcases hin id' q hq with ⟨hc, hd, hs⟩
      refine ⟨by cases hp : p.status <;> simp [wfAcc, hp, hc], ?_, hs⟩
      intro hst
      cases hp : p.status with
      | none => simpa [wfAcc, hp] using hd hst
      | some s => simp [wfAcc, hp, hd hst]
    | some q0 =>
      rw [hm] at hq
      by_cases h : id' = id
      · subst h
        rw [qget_qset_self] at hq
        rcases hin id' q0 hm with ⟨hc, hd, hs⟩
        cases hp : p.status with
        | none =>
          have hqs : q.status = q0.status := by
            simp [← Option.some.inj hq, applyPatch, hp]
          refine ⟨by simp [wfAcc, hp, hc], ?_, ?_⟩
          · intro hst
            simpa [wfAcc, hp] using hd (by simpa [hqs] using hst)
          · simpa [hqs] using hs
        | some s =>
          have hqs : q.status = s := by
            simp [← Option.some.inj hq, applyPatch, hp]
          have hse : s = "success" ∨ s = "error" := by
            have hg2 : (s == "success" || s == "error") = true ∧ (d.contains id' = false) := by
              simpa [wfStep, hp] using hg
            simpa using hg2.1
          refine ⟨by simp [wfAcc, hp, hc], by simp [wfAcc, hp], ?_⟩
          rcases hse with h1 | h1
          · right; left; simp [hqs, h1]
          · right; right; simp [hqs, h1]
      · rw [qget_qset_ne m id id' _ h] at hq
        rcases hin id' q hq with ⟨hc, hd, hs⟩
        refine ⟨by cases hp : p.status <;> simp [wfAcc, hp, hc], ?_, hs⟩
        intro hst
        cases hp : p.status with
        | none => simpa [wfAcc, hp] using hd hst
        | some s => simp [wfAcc, hp, hd hst]

/-- Accumulator state after a sequence of operations. -/
def wfAccList (c d : List String) : List QOp → List String × List String
  | [] => (c, d)
  | op :: rest => wfAccList (wfAcc c d op).1 (wfAcc c d op).2 rest

theorem wfOps_append (c d : List String) (l₁ l₂ : List QOp) :
    wfOps c d (l₁ ++ l₂) =
      (wfOps c d l₁ && wfOps (wfAccList c d l₁).1 (wfAccList c d l₁).2 l₂) := by
  induction l₁ generalizing c d with
  | nil => simp [wfOps, wfAccList]
  | cons op rest ih =>
    simp [wfOps, wfAccList, ih, Bool.and_assoc]

theorem qinv_run (l : List QOp) (m : QMap) (c d : List String)
    (hin : QInv m c d) (hwf : wfOps c d l = true) :
    QInv (l.foldl stepQ m) (wfAccList c d l).1 (wfAccList c d l).2 := by
  induction l generalizing m c d with
  | nil => simpa [wfAccList] using hin
  | cons op rest ih =>
    have hsplit : wfStep c d op = true ∧
        wfOps (wfAcc c d op).1 (wfAcc c d op).2 rest = true := by
      simpa [wfOps] using hwf
    simpa [wfAccList] using
      ih (stepQ m op) _ _ (qinv_step m c d op hin hsplit.1) hsplit.2

theorem qstatus_persist (l : List QOp) :
    ∀ (m : QMap) (c d : List String) (id : String) (q : QueryRec),
    QInv m c d → wfOps c d l = true → qget m id = some q → q.status ≠ "processing" →
    (qget (l.foldl stepQ m) id).map QueryRec.status = some q.status := by
  induction l with
  | nil =>
    intro m c d id q _ _ hq _
    simp [hq]
  | cons op rest ih =>
    intro m c d id q hin hwf hq hst
    have hsplit : wfStep c d op = true ∧
        wfOps (wfAcc c d op).1 (wfAcc c d op).2 rest = true := by
      simpa [wfOps] using hwf
    obtain ⟨h1, h2⟩ := hsplit
    have hin' := qinv_step m c d op hin h1
    rcases hin id q hq with ⟨hc, hd, _⟩
    cases op with
    | create id' uq t =>
      have hfresh : id' ∉ c := by
        simp only [wfStep] at h1
        simpa using h1
      have hne : id ≠ id' := fun h => hfresh (h ▸ hc)
      have hq' : qget (stepQ m (QOp.create id' uq t)) id = some q := by
        rw [stepQ, qget_qset_ne m id' id _ hne]
        exact hq
      simpa using ih (stepQ m (QOp.create id' uq t)) _ _ id q hin' h2 hq' hst
    | update id' p =>
      cases hm : qget m id' with
      | none =>
        have hstep : stepQ m (QOp.update id' p) = m := by simp [stepQ, hm]
        simpa [hstep] using ih m _ _ id q (by simpa [hstep] using hin') h2 hq hst
      | some q0 =>
        by_cases h : id = id'
        · subst h
          have hq0 : q0 = q := by
            rw [hm] at hq
            exact Option.some.inj hq
          subst hq0
          cases hp : p.status with
          | none =>
            have hq' : qget (stepQ m (QOp.update id p)) id = some (applyPatch q0 p) := by
              rw [stepQ, hm, qget_qset_self]
            have hps : (applyPatch q0 p).status = q0.status := by simp [applyPatch, hp]
            have := ih (stepQ m (QOp.update id p)) _ _ id (applyPatch q0 p) hin' h2 hq'
              (by simpa [hps] using hst)
            simpa [hps] using this
          | some s =>
            exfalso
            have h1' : (s == "success" || s == "error") = true ∧ (d.contains id = false) := by
              simpa [wfStep, hp] using h1
            have hdone : id ∉ d := by simpa using h1'.2
            exact hdone (hd hst)
        · have hq' : qget (stepQ m (QOp.update id' p)) id = some q := by
            rw [stepQ, hm, qget_qset_ne m id' id _ h]
            exact hq
          simpa using ih (stepQ m (QOp.update id' p)) _ _ id q hin' h2 hq' hst

/- ## The claims -/

/-- Claim C2: whenever the WHERE segment is present and the
status-equality pattern captures a value, the predicate matcher keeps
only records whose status field equals the captured value under strict
case-sensitive equality, the status check itself never rejects a record
whose status equals the value, and the output is a subsequence of the
input. -/
theorem claim_C2_status_equality (data : List Rec) (sql : String) (clk : Clock)
    (cap : List Char) (v : String)
    (hw : findWhereClause sql.toList = some cap)
    (hv : findEqCapture "status" (trimChars cap) = some v) :
    (∀ r ∈ applyWhereConditions data sql clk, getF r "status" = Value.str v) ∧
    (∀ r : Rec, getF r "status" = Value.str v → statusCheck (trimChars cap) r = true) ∧
    (applyWhereConditions data sql clk).Sublist data := by
  refine ⟨?_, ?_, ?_⟩
  · intro r hr
    rw [applyWhereConditions, hw] at hr
    have hpass := (List.mem_filter.mp hr).2
    have hst : statusCheck (trimChars cap) r = true := by
      simp only [rowPasses, Bool.and_eq_true] at hpass
      exact hpass.1.1.1.1.1.1.1
    simpa [statusCheck, hv] using hst
  · intro r hr
    simp [statusCheck, hv, hr]
  · rw [applyWhereConditions, hw]
    exact List.filter_sublist data

theorem claim_C2_witness :
    (∀ r ∈ applyWhereConditions [soPending, soDone] sqlStatusPending clkFix,
        getF r "status" = Value.str "pending") ∧
    (applyWhereConditions [soPending, soDone] sqlStatusPending clkFix).Sublist
        [soPending, soDone] := by
  have h := claim_C2_status_equality [soPending, soDone] sqlStatusPending clkFix
    capStatusPending "pending" (by decide) (by decide)
  exact ⟨h.1, h.2.2⟩

/-- Claim C3 counterexample: against the low-inventory clause, a record
with both fields present and quantity 80 strictly greater than reorder
level 0 is kept by the predicate matcher, because the zero reorder level
is falsy and the check is skipped; the claim as stated requires the
check to be skipped only for absent fields, hence this record to be
excluded. -/
theorem claim_C3_counterexample :
    applyWhereConditions [itemZeroReorder] sqlLowInv clkFix = [itemZeroReorder] ∧
    getF itemZeroReorder "quantityOnHand" = Value.num 80 ∧
    getF itemZeroReorder "reorderLevel" = Value.num 0 ∧
    jsGT (getF itemZeroReorder "quantityOnHand")
      (getF itemZeroReorder "reorderLevel") = true := by
  exact ⟨by decide, by decide, by decide, by decide⟩

/-- Claim C3 as amended: the low-inventory check is skipped exactly when
either field is falsy (absent, null or zero), not only when it is
absent; with both fields truthy the check keeps precisely the records
whose quantity on hand does not exceed the reorder level, and against
the two-item fixture only the first item is returned. -/
theorem claim_C3_amended (data : List Rec) (sql : String) (clk : Clock) (cap : List Char)
    (hw : findWhereClause sql.toList = some cap)
    (hm : hasLowInv (trimChars cap) = true) :
    (∀ r ∈ applyWhereConditions data sql clk,
      truthy (getF r "quantityOnHand") = true → truthy (getF r "reorderLevel") = true →
      jsGT (getF r "quantityOnHand") (getF r "reorderLevel") = false) ∧
    (∀ r : Rec,
      truthy (getF r "quantityOnHand") = false ∨ truthy (getF r "reorderLevel") = false →
      lowInvCheck (trimChars cap) r = true) ∧
    (∀ clk2 : Clock,
      applyWhereConditions [itemLow, itemHigh] sqlLowInv clk2 = [itemLow]) := by
  refine ⟨?_, ?_, ?_⟩
  · intro r hr hq hl
    rw [applyWhereConditions, hw] at hr
    have hpass := (List.mem_filter.mp hr).2
    have hck : lowInvCheck (trimChars cap) r = true := by
      simp only [rowPasses, Bool.and_eq_true] at hpass
      exact hpass.1.1.2
    rw [lowInvCheck, if_pos hm] at hck
    simpa [hq, hl] using hck
  · intro r hr
    rw [lowInvCheck, if_pos hm]
    rcases hr with hr | hr <;> simp [hr]
  · intro clk2
    rfl

theorem claim_C3_witness :
    (∀ r ∈ applyWhereConditions [itemLow, itemHigh] sqlLowInv clkFix,
      truthy (getF r "quantityOnHand") = true → truthy (getF r "reorderLevel") = true →
      jsGT (getF r "quantityOnHand") (getF r "reorderLevel") = false) ∧
    applyWhereConditions [itemLow, itemHigh] sqlLowInv clkFix = [itemLow] := by
  have h := claim_C3_amended [itemLow, itemHigh] sqlLowInv clkFix capLowInv
    (by decide) (by decide)
  exact ⟨h.1, h.2.2 clkFix⟩

/-- Claim C5: with a LIMIT clause carrying a digit run n the limit stage
returns exactly the first n rows (the output is the prefix whose length
is the minimum of n and the input length); the LIMIT pattern is
consulted before the SELECT TOP pattern, so a TOP clause applies only
when no LIMIT clause matches; with neither clause the input is returned
unchanged. -/
theorem claim_C5_limit (data : List Rec) (sql : String) :
    (∀ n, findLimit sql.toList = some n →
      applyLimit data sql ++ data.drop n = data ∧
      (applyLimit data sql).length = min n data.length) ∧
    (findLimit sql.toList = none → ∀ n, findTop sql.toList = some n →
      applyLimit data sql ++ data.drop n = data ∧
      (applyLimit data sql).length = min n data.length) ∧
    (findLimit sql.toList = none → findTop sql.toList = none →
      applyLimit data sql = data) := by
  refine ⟨?_, ?_, ?_⟩
  · intro n hn
    rw [applyLimit, hn]
    exact ⟨List.take_append_drop n data, List.length_take n data⟩
  · intro hn n ht
    rw [applyLimit, hn, ht]
    exact ⟨List.take_append_drop n data, List.length_take n data⟩
  · intro hn ht
    rw [applyLimit, hn, ht]

theorem claim_C5_witness :
    applyLimit [invoiceA, invoiceB, invoiceC] sqlLimitTwo ++
      List.drop 2 [invoiceA, invoiceB, invoiceC] = [invoiceA, invoiceB, invoiceC] ∧
    (applyLimit [invoiceA, invoiceB, invoiceC] sqlLimitTwo).length =
      min 2 [invoiceA, invoiceB, invoiceC].length :=
  (claim_C5_limit [invoiceA, invoiceB, invoiceC] sqlLimitTwo).1 2 (by decide)

/-- Claim C10 counterexample: for the clause LIMIT 2abc the token after
LIMIT is not a digit sequence and no SELECT TOP clause is present, yet
the limit stage truncates a three-record input to its first two rows
rather than returning it unchanged, because the digit run 2 at the head
of the token satisfies the pattern. -/
theorem claim_C10_counterexample :
    applyLimit [invoiceA, invoiceB, invoiceC] sqlLimitJunk = [invoiceA, invoiceB] ∧
    findTop sqlLimitJunk.toList = none ∧
    applyLimit [invoiceA, invoiceB, invoiceC] sqlLimitJunk ≠
      [invoiceA, invoiceB, invoiceC] := by
  exact ⟨by decide, by decide, by decide⟩

/-- Claim C10 as amended: the limit stage returns its input unchanged
exactly when no occurrence of LIMIT is followed by whitespace and at
least one decimal digit (so a token such as abc is silently ignored),
and no SELECT TOP digit clause is present; a token with a leading digit
run, such as 12abc, instead yields that digit run as the limit. -/
theorem claim_C10_amended (data : List Rec) (sql : String)
    (hl : ∀ t ∈ sql.toList.tails, matchLimitAt t = none)
    (ht : ∀ t ∈ sql.toList.tails, matchTopAt t = none) :
    applyLimit data sql = data := by
  have h1 : findLimit sql.toList = none := scanFirst_eq_none matchLimitAt sql.toList hl
  have h2 : findTop sql.toList = none := scanFirst_eq_none matchTopAt sql.toList ht
  rw [applyLimit, h1, h2]

theorem claim_C10_witness :
    applyLimit [invoiceA, invoiceB, invoiceC] sqlLimitAbc =
      [invoiceA, invoiceB, invoiceC] :=
  claim_C10_amended [invoiceA, invoiceB, invoiceC] sqlLimitAbc (by decide) (by decide)

/-- Claim C6: executeSqlQuery fails with the unsupported-statement error
exactly when the trimmed, case-folded input does not begin with the
select keyword. -/
theorem claim_C6_unsupported (st : MemStorage) (sql : String) (clk : Clock) :
    executeSqlQuery st sql clk = Except.error SqlError.unsupportedStatement ↔
      startsWithLit "select".toList (lowerTrim sql) = false := by
  rw [executeSqlQuery]
  by_cases h : startsWithLit "select".toList (lowerTrim sql) = true
  · rw [if_pos h]
    constructor
    · intro hc
      exfalso
      split_ifs at hc
      all_goals simp_all
    · intro hc
      exact absurd (h.symm.trans hc) (by simp)
  · have h' : startsWithLit "select".toList (lowerTrim sql) = false := by
      simpa using h
    rw [if_neg h]
    exact iff_of_true rfl h'

theorem claim_C6_witness :
    executeSqlQuery woStore "not a select" clkFix =
      Except.error SqlError.unsupportedStatement :=
  (claim_C6_unsupported woStore "not a select" clkFix).mpr (by decide)

/-- Claim C7: for SELECT input, executeSqlQuery fails with the
unknown-table error exactly when the lowered input contains none of the
four table-name substrings, and when several appear the collection is
selected in the fixed priority order: sales orders, then work orders,
then invoices, then inventory items. -/
theorem claim_C7_unknown_table (st : MemStorage) (sql : String) (clk : Clock)
    (hsel : startsWithLit "select".toList (lowerTrim sql) = true) :
    (executeSqlQuery st sql clk = Except.error SqlError.unknownTable ↔
      (containsLit "sales_orders".toList (lowerTrim sql) = false ∧
       containsLit "work_orders".toList (lowerTrim sql) = false ∧
       containsLit "invoices".toList (lowerTrim sql) = false ∧
       containsLit "inventory_items".toList (lowerTrim sql) = false)) ∧
    (containsLit "sales_orders".toList (lowerTrim sql) = true →
      executeSqlQuery st sql clk = Except.ok (runStages st.salesOrders sql clk)) ∧
    (containsLit "sales_orders".toList (lowerTrim sql) = false →
      containsLit "work_orders".toList (lowerTrim sql) = true →
      executeSqlQuery st sql clk = Except.ok (runStages st.workOrders sql clk)) ∧
    (containsLit "sales_orders".toList (lowerTrim sql) = false →
      containsLit "work_orders".toList (lowerTrim sql) = false →
      containsLit "invoices".toList (lowerTrim sql) = true →
      executeSqlQuery st sql clk = Except.ok (runStages st.invoices sql clk)) ∧
    (containsLit "sales_orders".toList (lowerTrim sql) = false →
      containsLit "work_orders".toList (lowerTrim sql) = false →
      containsLit "invoices".toList (lowerTrim sql) = false →
      containsLit "inventory_items".toList (lowerTrim sql) = true →
      executeSqlQuery st sql clk = Except.ok (runStages st.inventoryItems sql clk)) := by
  rw [executeSqlQuery, if_pos hsel]
  refine ⟨?_, ?_, ?_, ?_, ?_⟩
  · constructor
    · intro hc
      split_ifs at hc
      all_goals simp_all
    · intro ⟨h1, h2, h3, h4⟩
      rw [if_neg (by simpa using h1), if_neg (by simpa using h2), if_neg (by simpa using h3),
        if_neg (by simpa using h4)]
  · intro h1
    rw [if_pos h1]
  · intro h1 h2
    rw [if_neg (by simpa using h1), if_pos h2]
  · intro h1 h2 h3
    rw [if_neg (by simpa using h1), if_neg (by simpa using h2), if_pos h3]
  · intro h1 h2 h3 h4
    rw [if_neg (by simpa using h1), if_neg (by simpa using h2), if_neg (by simpa using h3), if_pos h4]

theorem claim_C7_witness :
    executeSqlQuery woStore "select * from work_orders, invoices" clkFix =
      Except.ok (runStages woStore.workOrders "select * from work_orders, invoices"
        clkFix) :=
  (claim_C7_unknown_table woStore "select * from work_orders, invoices" clkFix
    (by decide)).2.2.1 (by decide) (by decide)

/-- Claim C1 (code bug): on the three-record fixture of the scenario the
delayed-work-orders query returns only the delayed record, not the two
records the claim describes: the generic status-equality pattern also
matches the clause and captures the value delayed, so the filter rejects
the overdue in-progress record before the hardcoded disjunction is
consulted.  The remaining conjuncts document that the in-progress record
is exactly the one the claim says must also be returned: its status is
in-progress and its truthy scheduled date lies strictly before the
evaluation time. -/
theorem claim_C1_delayed_or_scenario :
    executeSqlQuery woStore sqlDelayedOr clkFix = Except.ok [woDelayed] ∧
    getF woInProgress "status" = Value.str "in-progress" ∧
    truthy (getF woInProgress "scheduledDate") = true ∧
    newDateEpoch (getF woInProgress "scheduledDate") = some 500 ∧
    (500 : Int) < clkFix.now ∧
    woInProgress ∈ woStore.workOrders := by
  exact ⟨rfl, by decide, by decide, by decide, by decide, by decide⟩

theorem executeSqlQueryH_frame (h : Heap) (refs : StoreRefs) (sql : String)
    (clk : Clock) (i : Nat) (hi : i < h.length) :
    hget (executeSqlQueryH h refs sql clk).2 i = hget h i := by
  rw [executeSqlQueryH]
  by_cases hs : startsWithLit "select".toList (lowerTrim sql) = true
  · rw [if_pos hs]
    cases hc : chooseRef refs (lowerTrim sql) with
    | none => rfl
    | some r0 =>
      simp only [halloc]
      have base : ∀ j, j < h.length → hget (h ++ [hget h r0]) j = hget h j :=
        fun j hj => hget_halloc h _ j hj
      have s0 : h.length ≤ (h ++ [hget h r0]).length := by simp
      obtain ⟨wlen, wref, wpres⟩ :=
        applyWhereH_frame (h ++ [hget h r0]) h.length sql clk h.length s0 (le_refl _)
      obtain ⟨olen, oref, opres⟩ := applyOrderByH_frame _ _ sql h.length wlen wref
      obtain ⟨llen, lref, lpres⟩ := applyLimitH_frame _ _ sql h.length olen oref
      calc hget (applyLimitH (applyOrderByH
            (applyWhereH (h ++ [hget h r0]) h.length sql clk).2
            (applyWhereH (h ++ [hget h r0]) h.length sql clk).1 sql).2
            (applyOrderByH (applyWhereH (h ++ [hget h r0]) h.length sql clk).2
              (applyWhereH (h ++ [hget h r0]) h.length sql clk).1 sql).1 sql).2 i
          = hget (applyOrderByH (applyWhereH (h ++ [hget h r0]) h.length sql clk).2
              (applyWhereH (h ++ [hget h r0]) h.length sql clk).1 sql).2 i :=
            lpres i hi
        _ = hget (applyWhereH (h ++ [hget h r0]) h.length sql clk).2 i := opres i hi
        _ = hget (h ++ [hget h r0]) i := wpres i hi
        _ = hget h i := base i hi
  · rw [if_neg hs]

/-- Claim C8: executeSqlQuery never mutates the canonical store.  In the
heap model, where the spread copy, the fresh arrays of filter and slice,
and the in-place mutation of sort are explicit, every heap cell that
exists before the call, in particular each of the four canonical
collections, holds the same records in the same order afterwards,
whether the call succeeds or fails. -/
theorem claim_C8_no_mutation (h : Heap) (refs : StoreRefs) (sql : String) (clk : Clock)
    (h1 : refs.salesRef < h.length) (h2 : refs.worksRef < h.length)
    (h3 : refs.invsRef < h.length) (h4 : refs.itemsRef < h.length) :
    hget (executeSqlQueryH h refs sql clk).2 refs.salesRef = hget h refs.salesRef ∧
    hget (executeSqlQueryH h refs sql clk).2 refs.worksRef = hget h refs.worksRef ∧
    hget (executeSqlQueryH h refs sql clk).2 refs.invsRef = hget h refs.invsRef ∧
    hget (executeSqlQueryH h refs sql clk).2 refs.itemsRef = hget h refs.itemsRef :=
  ⟨executeSqlQueryH_frame h refs sql clk _ h1,
   executeSqlQueryH_frame h refs sql clk _ h2,
   executeSqlQueryH_frame h refs sql clk _ h3,
   executeSqlQueryH_frame h refs sql clk _ h4⟩

theorem claim_C8_witness :
    hget (executeSqlQueryH heapFix refsFix sqlDelayedOr clkFix).2 refsFix.salesRef =
      hget heapFix refsFix.salesRef ∧
    hget (executeSqlQueryH heapFix refsFix sqlDelayedOr clkFix).2 refsFix.worksRef =
      hget heapFix refsFix.worksRef ∧
    hget (executeSqlQueryH heapFix refsFix sqlDelayedOr clkFix).2 refsFix.invsRef =
      hget heapFix refsFix.invsRef ∧
    hget (executeSqlQueryH heapFix refsFix sqlDelayedOr clkFix).2 refsFix.itemsRef =
      hget heapFix refsFix.itemsRef :=
  claim_C8_no_mutation heapFix refsFix sqlDelayedOr clkFix
    (by decide) (by decide) (by decide) (by decide)

/-- Claim C9 counterexample: updateQuery merges an arbitrary partial
record without guarding the status transition, so a record whose status
is already success moves to error under one further update, violating
the claimed once-only immutable transition discipline. -/
theorem claim_C9_counterexample :
    statusAt opsC9 "q1" = some "success" ∧
    statusAt (opsC9 ++ [QOp.update "q1" patchError]) "q1" = some "error" := by
  exact ⟨by decide, by decide⟩

/-- Claim C9 as amended: createQuery always stores the record with
status processing, and the once-only transition discipline holds for
exactly the operation sequences in which created identifiers are fresh
and each record receives at most one status-bearing update, that update
carrying success or error: under that usage restriction a status other
than processing persists unchanged through any further operations, and
every observable status is processing, success or error.  updateQuery
itself enforces none of this. -/
theorem claim_C9_amended (ops l₁ l₂ : List QOp) (id : String) (s : String)
    (hops : ops = l₁ ++ l₂) (hwf : wfOps [] [] ops = true) :
    (statusAt l₁ id = some s → s ≠ "processing" → statusAt ops id = some s) ∧
    (statusAt l₁ id = some s → s = "processing" ∨ s = "success" ∨ s = "error") ∧
    (∀ uq t, statusAt (l₁ ++ [QOp.create id uq t]) id = some "processing") := by
  subst hops
  have hsplit : wfOps [] [] l₁ = true ∧
      wfOps (wfAccList [] [] l₁).1 (wfAccList [] [] l₁).2 l₂ = true := by
    have happ := wfOps_append [] [] l₁ l₂
    rw [happ] at hwf
    simpa using hwf
  have hinv : QInv (runQ l₁) (wfAccList [] [] l₁).1 (wfAccList [] [] l₁).2 :=
    qinv_run l₁ [] [] [] qinv_nil hsplit.1
  refine ⟨?_, ?_, ?_⟩
  · intro hst hne
    obtain ⟨q, hq, hqs⟩ := Option.map_eq_some'.mp hst
    have hrun : runQ (l₁ ++ l₂) = l₂.foldl stepQ (runQ l₁) := by
      rw [runQ, List.foldl_append]
      rfl
    rw [statusAt, hrun]
    have := qstatus_persist l₂ (runQ l₁) _ _ id q hinv hsplit.2 hq
      (by rw [hqs]; exact hne)
    rw [this, hqs]
  · intro hst
    obtain ⟨q, hq, hqs⟩ := Option.map_eq_some'.mp hst
    have := (hinv id q hq).2.2
    rw [hqs] at this
    exact this
  · intro uq t
    have hrun : runQ (l₁ ++ [QOp.create id uq t]) =
        stepQ (runQ l₁) (QOp.create id uq t) := by
      rw [runQ, List.foldl_append]
      rfl
    rw [statusAt, hrun, stepQ, qget_qset_self]
    rfl

theorem claim_C9_witness :
    statusAt (opsC9 ++ [QOp.update "q1" patchSql]) "q1" = some "success" :=
  (claim_C9_amended (opsC9 ++ [QOp.update "q1" patchSql]) opsC9
    [QOp.update "q1" patchSql] "q1" "success" rfl (by decide)).1
    (by decide) (by decide)

end Ebs
